import Mathlib

/-!
Verification development for the ai-cli subprocess response pipeline.

Shallow embedding of the two files that carry the pipeline logic:
  - src/ai_cli/tools/safe_commands.py (path safety, whitelisted inspection
    operations, CommandResult)
  - src/ai_cli/llm_client.py (command construction, conversation rewrite and
    retry, streaming verdict, inline [CMD: ...] expansion)

Modelling conventions:
  - Filesystem, subprocess and registry effects are inputs: each embedded
    operation takes the outcome its collaborator would produce and computes
    the result the Python code computes from it.
  - Resolved paths are lists of components (the parts of a resolved absolute
    POSIX path); rendering a path to a string prepends "/" and joins with "/",
    matching str() of a resolved pathlib.Path.
  - Python's str.strip / str.split / str.lower are modelled over the ASCII
    whitespace and letter ranges, which covers every literal the code uses.
-/

namespace AiCli

/-- Whitespace characters recognised by Python str.strip and str.split. -/
def isPySpace (c : Char) : Bool :=
  c == ' ' || c == '\t' || c == '\n' || c == '\r' || c == '\x0b' || c == '\x0c'

/-- Python str.strip on a character list: drop whitespace at both ends. -/
def pyStrip (cs : List Char) : List Char :=
  ((cs.dropWhile isPySpace).reverse.dropWhile isPySpace).reverse

/-- Python str.strip on a String. -/
def strip (s : String) : String := String.mk (pyStrip s.data)

/-- Python str.lower (ASCII range, which covers all characters compared here). -/
def lowerStr (s : String) : String := String.mk (s.data.map Char.toLower)

/-- Python str.startswith: first argument is a leading part of the second. -/
def strStarts (p s : String) : Bool := p.data.isPrefixOf s.data

/-- A single-quote character, used in the inline error marker text. -/
def sq : String := String.singleton (Char.ofNat 39)

/-! ## safe_commands.py: security validation -/

/-- Security levels of `SecurityLevel` in safe_commands.py. -/
inductive SecurityLevel
  | strict
  | normal
  | relaxed
deriving DecidableEq

/-- Module-level `SECURITY_LEVEL = SecurityLevel.STRICT` (the default). -/
def SECURITY_LEVEL : SecurityLevel := SecurityLevel.strict

/-- The `BLOCKED_PATHS` denylist, in source order. -/
def BLOCKED_PATHS : List String :=
  ["/etc/passwd", "/etc/shadow", "/etc/hosts",
   "~/.ssh", "~/.aws", "~/.config",
   ".env", ".env.local", ".env.production",
   "secrets.json", "credentials.json"]

/-- The `dangerous_prefixes` list used at the NORMAL security level. -/
def dangerousPrefixes : List String :=
  ["/etc", "/root", "/var", "/usr", "/bin", "/sbin"]

/-- Render a resolved path (component list) to its string form, as
str() of a resolved absolute pathlib.Path does. -/
def renderPath (parts : List String) : String :=
  "/" ++ String.intercalate "/" parts

/-- Path.expanduser on a path string: replace a leading "~" by the home
directory; other paths are unchanged. -/
def expandUser (home : String) (p : String) : String :=
  if p = "~" then home
  else if strStarts "~/" p then home ++ String.mk (p.data.drop 1)
  else p

/-- The blocked-path scan of `_is_path_safe`: lower-case the normalized path
string and return the first denylist entry whose expanded, lower-cased form
equals it or is a leading part of it. -/
def blockedHit (normalized : List String) (home : String) : Option String :=
  let pathStr := lowerStr (renderPath normalized)
  BLOCKED_PATHS.find? fun b =>
    let be := lowerStr (expandUser home b)
    pathStr == be || strStarts be pathStr

/-- Embedding of `_is_path_safe` (safe_commands.py lines 88-124): the blocked
scan first, then the security-level check. `normalized` is the resolved path,
`base` the current working directory (both as component lists), `home` the
home directory string used by expanduser. Returns (is_safe, reason). -/
def is_path_safe (normalized base : List String) (home : String) : Bool × String :=
  match blockedHit normalized home with
  | some b => (false, "Path bloqueado por segurança: " ++ b)
  | none =>
    match SECURITY_LEVEL with
    | SecurityLevel.strict =>
      if base.isPrefixOf normalized then (true, "")
      else (false, "Path fora do diretório atual (modo strict)")
    | SecurityLevel.normal =>
      match dangerousPrefixes.find? (fun q => strStarts q (lowerStr (renderPath normalized))) with
      | some q => (false, "Path de sistema não permitido: " ++ q)
      | none => (true, "")
    | SecurityLevel.relaxed => (true, "")

/-! ## safe_commands.py: CommandResult and the whitelisted operations -/

/-- An entry produced by list_directory for one child of the directory. -/
structure DirEntry where
  name : String
  isDir : Bool
  size : Option Nat
deriving DecidableEq

/-- Values stored in the free-form metadata mapping of a CommandResult. -/
inductive MetaVal
  | str (s : String)
  | num (n : Nat)
  | items (l : List DirEntry)
deriving DecidableEq

/-- Embedding of the `CommandResult` dataclass. `error` is Optional[str]. -/
structure CommandResult where
  success : Bool
  output : String := ""
  error : Option String := none
  truncated : Bool := false
  metadata : List (String × MetaVal) := []
deriving DecidableEq

/-- The error field is set and holds at least one character. -/
def errNonempty (r : CommandResult) : Bool :=
  match r.error with
  | some m => decide (m ≠ "")
  | none => false

/-- What the subprocess.run call inside run_safe_command did: completed with
an exit code and captured streams, timed out, was not found, or raised. -/
inductive RunOutcome
  | completed (returncode : Int) (stdout stderr : String)
  | timedOut
  | notFound
  | exc (msg : String)
deriving DecidableEq

/-- Module-level `COMMAND_TIMEOUT = 5` of safe_commands.py. -/
def COMMAND_TIMEOUT : Nat := 5

/-- Embedding of `run_safe_command` (safe_commands.py lines 159-193) given the
outcome of the underlying subprocess.run call. -/
def run_safe_command (cmd : List String) (timeout : Nat) (o : RunOutcome) : CommandResult :=
  match o with
  | RunOutcome.completed rc out err =>
    { success := rc == 0
      output := out
      error := if rc == 0 then none else some err }
  | RunOutcome.timedOut =>
    { success := false, error := some ("Comando expirou após " ++ toString timeout ++ "s") }
  | RunOutcome.notFound =>
    { success := false, error := some ("Comando não encontrado: " ++ cmd.headD "") }
  | RunOutcome.exc m => { success := false, error := some m }

/-- What iterating the directory produced: the surviving entries (per-item
PermissionError/OSError entries are already skipped by the loop), or an
exception caught by the enclosing except clause, rendered to str(e). -/
inductive ListingOutcome
  | ok (entries : List DirEntry)
  | exc (msg : String)
deriving DecidableEq

/-- Embedding of `list_directory` (safe_commands.py lines 196-230).
`filepath` is the raw argument (used in messages), `normalized` its resolved
form, `ex`/`isDir` what the filesystem answers, `listing` the iteration
outcome. -/
def list_directory (filepath : String) (normalized base : List String) (home : String)
    (ex isDir : Bool) (listing : ListingOutcome) : CommandResult :=
  match is_path_safe normalized base home with
  | (false, reason) => { success := false, error := some reason }
  | (true, _) =>
    if ex = false then
      { success := false, error := some ("Caminho não existe: " ++ filepath) }
    else if isDir = false then
      { success := false, error := some ("Não é um diretório: " ++ filepath) }
    else
      match listing with
      | ListingOutcome.exc m => { success := false, error := some m }
      | ListingOutcome.ok entries =>
        { success := true
          output := ""
          metadata := [("items", MetaVal.items entries), ("path", MetaVal.str (renderPath normalized))] }

/-- What reading the file produced: the list of readline results (one per
readline call, empty string at end of file), or an exception caught by the
enclosing except clause. -/
inductive ReadOutcome
  | ok (lines : List String)
  | exc (msg : String)
deriving DecidableEq

/-- Module-level `MAX_FILE_SIZE = 1_000_000` of safe_commands.py. -/
def MAX_FILE_SIZE : Nat := 1000000

/-- Module-level `MAX_LINES = 100` of safe_commands.py. -/
def MAX_LINES : Nat := 100

/-- Embedding of `read_file` (safe_commands.py lines 233-274). The filesystem
answers (`ex`, `isFile`, `sz`, `isTxt` for the `_is_text_file` sniff, `rd` for
the read itself) are inputs; the path-safety check runs before any of them is
consulted, exactly as in the source. -/
def read_file (filepath : String) (normalized base : List String) (home : String)
    (ex isFile : Bool) (sz : Nat) (isTxt : Bool) (rd : ReadOutcome)
    (maxLines : Nat := MAX_LINES) : CommandResult :=
  match is_path_safe normalized base home with
  | (false, reason) => { success := false, error := some reason }
  | (true, _) =>
    if ex = false then
      { success := false, error := some ("Ficheiro não existe: " ++ filepath) }
    else if isFile = false then
      { success := false, error := some ("Não é um ficheiro: " ++ filepath) }
    else if MAX_FILE_SIZE < sz then
      { success := false, error := some "Ficheiro muito grande (>1MB)" }
    else if isTxt = false then
      { success := false, error := some "Ficheiro binário não pode ser lido" }
    else
      match rd with
      | ReadOutcome.exc m => { success := false, error := some m }
      | ReadOutcome.ok lines =>
        let kept := lines.filter (fun l => l != "")
        { success := true
          output := String.join kept
          truncated := decide (maxLines ≤ kept.length)
          metadata := [("filepath", MetaVal.str (renderPath normalized)),
                       ("lines_read", MetaVal.num kept.length)] }

/-- Embedding of `get_current_directory` (safe_commands.py lines 294-296). -/
def get_current_directory (cwd : String) : CommandResult :=
  { success := true, output := cwd }

/-- Embedding of `get_git_status` (safe_commands.py lines 277-282): fail fast
when git is unavailable, otherwise delegate to run_safe_command. -/
def get_git_status (gitAvail : Bool) (o : RunOutcome) : CommandResult :=
  if gitAvail then run_safe_command ["git", "status", "--short", "--branch"] COMMAND_TIMEOUT o
  else { success := false, error := some "Git não está instalado" }

/-- The clamp `n = max(1, min(n, 50))` of get_git_log. -/
def clampLog (n : Int) : Int := max 1 (min n 50)

/-- The argv `["git", "log", f"-{n}", "--oneline"]` built by get_git_log. -/
def gitLogArgs (n : Int) : List String :=
  ["git", "log", "-" ++ toString (clampLog n), "--oneline"]

/-- Embedding of `get_git_log` (safe_commands.py lines 285-291). The second
component records the argv handed to run_safe_command (none when git is
unavailable and nothing is run). -/
def get_git_log (n : Int) (gitAvail : Bool) (o : RunOutcome) : CommandResult × Option (List String) :=
  if gitAvail then (run_safe_command (gitLogArgs n) COMMAND_TIMEOUT o, some (gitLogArgs n))
  else ({ success := false, error := some "Git não está instalado" }, none)

/-! ## llm_client.py: command construction (query_llm lines 619-663) -/

/-- The `["-m", model_id]` fragment, present only when a model id resolved. -/
def modelPart (modelId : Option String) : List String :=
  match modelId with
  | some m => ["-m", m]
  | none => []

/-- The command built by query_llm lines 619-634: runner entry
`[sys.executable, "-m", "llm"]`, then `-c` or `--system <text>`, then the
optional `-m <model-id>`, then the prompt as final argument. -/
def buildCmd (py : String) (modelId : Option String) (cont : Bool)
    (systemText prompt : String) : List String :=
  ([py, "-m", "llm"] ++ (if cont then ["-c"] else ["--system", systemText]))
    ++ modelPart modelId ++ [prompt]

/-- The command actually launched (query_llm lines 639-651): when continuation
was requested but the session marker is absent, every "-c" is filtered out and
`--system <text>` is appended; otherwise the built command is unchanged. -/
def launchedCmd (py : String) (modelId : Option String) (cont hasHistory : Bool)
    (systemText prompt : String) : List String :=
  let cmd := buildCmd py modelId cont systemText prompt
  if cont && !hasHistory then cmd.filter (fun c => c != "-c") ++ ["--system", systemText]
  else cmd

/-- The continuation flag still in force after the marker-absent rewrite
(set to False by the rewrite, line 646). -/
def effectiveCont (cont hasHistory : Bool) : Bool := cont && hasHistory

/-- The retry command of query_llm lines 653-658 (taken when the first call
failed, continuation was still in force and the error text mentions
"conversation"): filter out "-c" and append `--system <text>`. -/
def retryCmd (cmd : List String) (systemText : String) : List String :=
  cmd.filter (fun c => c != "-c") ++ ["--system", systemText]

/-- The argv shape claimed by the spec for every launched request:
runner entry, one of -c or --system text, an optional -m model-id,
and the prompt as the final argument. -/
def argvWellFormed (py prompt : String) (argv : List String) : Prop :=
  ∃ sysPart mPart,
    (sysPart = ["-c"] ∨ ∃ s, sysPart = ["--system", s]) ∧
    (mPart = [] ∨ ∃ m, mPart = ["-m", m]) ∧
    argv = [py, "-m", "llm"] ++ sysPart ++ mPart ++ [prompt]

/-! ## llm_client.py: streaming verdict (_query_with_streaming lines 817-838) -/

/-- Embedding of the verdict _query_with_streaming reaches after the child
process completed (lines 817-838): `outChunks`/`errChunks` are the stdout and
stderr chunks the reader threads delivered (empty chunks are dropped by the
`and content` guards), `rc` the exit code. Returns (content, error), where on
a non-zero exit with stderr that strips to something non-empty the stripped
stderr is the error and stdout is discarded; an empty accumulated stdout is
the "Sem resposta" error; otherwise the joined stdout is returned. -/
def query_with_streaming (rc : Int) (outChunks errChunks : List String) :
    Option String × Option String :=
  if rc ≠ 0 ∧ errChunks.filter (fun c => c != "") ≠ [] ∧
      strip (String.join (errChunks.filter (fun c => c != ""))) ≠ "" then
    (none, some (strip (String.join (errChunks.filter (fun c => c != "")))))
  else if outChunks.filter (fun c => c != "") = [] then (none, some "Sem resposta")
  else (some (String.join (outChunks.filter (fun c => c != ""))), none)

/-! ## llm_client.py: inline command expansion (execute_safe_commands, lines 244-302) -/

/-- The `ALLOWED_COMMANDS` whitelist of execute_safe_commands, in source
order. -/
def ALLOWED_COMMANDS : List String :=
  ["ls", "dir", "cat", "type", "pwd", "git", "tree", "find", "grep", "search"]

/-- The inline rejection marker for an unknown command name: the f-string of
llm_client.py line 291, with sorted(ALLOWED_COMMANDS) joined by ", ". -/
def errorMarker (name : String) : String :=
  "\n**[Erro: Comando " ++ sq ++ name ++ sq ++
    " não permitido. Permitidos: cat, dir, find, git, grep, ls, pwd, search, tree, type]**\n"

/-- Python `cmd_str.split(maxsplit=1)` on an already-stripped character list:
none when there is no token at all (the IndexError path of `parts[0]`),
otherwise the first whitespace-free token and, if anything follows the first
whitespace run, the verbatim remainder. -/
def splitFirstToken (cs : List Char) : Option (String × Option String) :=
  let tok := cs.takeWhile (fun c => !isPySpace c)
  if tok = [] then none
  else
    let rest := (cs.dropWhile (fun c => !isPySpace c)).dropWhile isPySpace
    some (String.mk tok, if rest = [] then none else some (String.mk rest))

/-- The `replace_command` closure (llm_client.py lines 283-300) applied to the
matched directive content: strip it, split off the name, lower-case it and
check the whitelist. Unknown names yield the rejection marker and no call; a
whitelisted name delegates to `f` (modelling `_execute_single_command` plus
`_format_command_result`) and records the call. none models the uncaught
IndexError when the stripped content has no token. -/
def replaceCommand (f : String → Option String → String) (content : List Char) :
    Option (String × List (String × Option String)) :=
  match splitFirstToken (pyStrip content) with
  | none => none
  | some (tok, argOpt) =>
    let name := lowerStr tok
    if name ∈ ALLOWED_COMMANDS then some (f name argOpt, [(name, argOpt)])
    else some (errorMarker name, [])

/-- Scan to the first ']' of the list: the span before it and the remainder
after it, or none when the list holds no ']' (the regex `[^\]]+\]` then cannot
complete). -/
def takeUntilRBracket : List Char → Option (List Char × List Char)
  | [] => none
  | c :: cs =>
    if c = ']' then some ([], cs)
    else (takeUntilRBracket cs).map (fun p => (c :: p.1, p.2))

/-- One attempt of the regex `\[CMD:\s*([^\]]+)\]` at the head of the list:
when the list starts with "[CMD:" followed by a non-empty ']'-free span and a
closing ']', return that span (the directive content) and the remainder after
the match; none otherwise. -/
def scanStep (cs : List Char) : Option (List Char × List Char) :=
  if cs.take 5 = "[CMD:".data then
    match takeUntilRBracket (cs.drop 5) with
    | some (s, after) => if s = [] then none else some (s, after)
    | none => none
  else none

/-- Fuel-indexed engine of `re.sub(pattern, replace_command, text,
count=budget)`: walk the text, replace each directive match while budget
remains, pass everything else (and everything after the budget runs out)
through unchanged, and record the executed calls in order. The fuel only
bounds recursion depth; it is irrelevant once at least the list length. -/
def subAuxF (f : String → Option String → String) :
    Nat → List Char → Nat → Option (List Char × List (String × Option String))
  | _, [], _ => some ([], [])
  | 0, cs, _ => some (cs, [])
  | fuel + 1, c :: rest, b =>
    if b = 0 then some (c :: rest, [])
    else
      match scanStep (c :: rest) with
      | some (s, after) =>
        match replaceCommand f s with
        | none => none
        | some (repl, calls) =>
          (subAuxF f fuel after (b - 1)).map (fun p => (repl.data ++ p.1, calls ++ p.2))
      | none => (subAuxF f fuel rest b).map (fun p => (c :: p.1, p.2))

/-- `re.sub` with a replacement budget, fuelled by the text length. -/
def subRun (f : String → Option String → String) (cs : List Char) (b : Nat) :
    Option (List Char × List (String × Option String)) :=
  subAuxF f cs.length cs b

/-- Fuel-indexed count of the matches of `\[CMD:\s*([^\]]+)\]`, mirroring
re.finditer: leftmost, non-overlapping. -/
def countMatchesF : Nat → List Char → Nat
  | 0, _ => 0
  | _ + 1, [] => 0
  | fuel + 1, c :: rest =>
    match scanStep (c :: rest) with
    | some (_, after) => 1 + countMatchesF fuel after
    | none => countMatchesF fuel rest

/-- Number of directive matches in the text. -/
def countMatches (cs : List Char) : Nat := countMatchesF cs.length cs

/-- Result of one expansion pass: the rewritten text, how many warnings were
rendered, and the executed (name, argument) calls in order. -/
structure ExpandResult where
  text : String
  warnings : Nat
  calls : List (String × Option String)
deriving DecidableEq

/-- Embedding of `execute_safe_commands` (llm_client.py lines 244-302) with
confirm=False (the pipeline's call). Text without any match is returned
untouched; otherwise one warning is rendered when the matches exceed the cap,
and re.sub replaces the first `maxCommands` matches (count=0 means replace
all, as in Python). none models the uncaught IndexError raised on a directive
whose content strips to nothing. -/
def execute_safe_commands (f : String → Option String → String) (text : String)
    (maxCommands : Nat := 5) : Option ExpandResult :=
  let n := countMatches text.data
  if n = 0 then some { text := text, warnings := 0, calls := [] }
  else
    let warnings := if maxCommands < n then 1 else 0
    let budget := if maxCommands = 0 then n else maxCommands
    (subRun f text.data budget).map fun p =>
      { text := String.mk p.1, warnings := warnings, calls := p.2 }

/-! ## Helper lemmas -/

theorem bne_true_of_ne {a b : String} (h : a ≠ b) : (a != b) = true := by
  cases hb : a == b
  · simp [bne, hb]
  · exact absurd (eq_of_beq hb) h

theorem append_ne_empty (s t : String) (h : s.data ≠ []) : s ++ t ≠ "" := by
  intro he
  apply h
  have hd : (s ++ t).data = s.data ++ t.data := by cases s; cases t; rfl
  rw [he] at hd
  have h0 : s.data ++ t.data = ([] : List Char) := hd.symm
  exact (List.append_eq_nil.mp h0).1

theorem reason_ne_empty {nz b : List String} {h : String} {r : String}
    (heq : is_path_safe nz b h = (false, r)) : r ≠ "" := by
  unfold is_path_safe at heq
  cases hb : blockedHit nz h with
  | some bl =>
    rw [hb] at heq
    have h2 : r = "Path bloqueado por segurança: " ++ bl := by
      have h3 := congrArg Prod.snd heq
      simpa using h3.symm
    rw [h2]
    exact append_ne_empty _ _ (by decide)
  | none =>
    rw [hb] at heq
    simp only [SECURITY_LEVEL] at heq
    by_cases hp : b.isPrefixOf nz
    · simp [hp] at heq
    · simp [hp] at heq
      rw [← heq]
      decide

theorem unsafe_of_bad {nz b : List String} {h : String}
    (hbad : blockedHit nz h ≠ none ∨ b.isPrefixOf nz = false) :
    ∃ r, is_path_safe nz b h = (false, r) := by
  cases hb : blockedHit nz h with
  | some bl =>
    exact ⟨"Path bloqueado por segurança: " ++ bl, by simp [is_path_safe, hb]⟩
  | none =>
    rcases hbad with h1 | h2
    · exact absurd hb h1
    · exact ⟨"Path fora do diretório atual (modo strict)",
        by simp [is_path_safe, hb, SECURITY_LEVEL, h2]⟩

/-! ## Claim C1 -/

/-- C1: every path that hits the blocked-path denylist or, under the default
strict security level, does not resolve to a location inside the current
working directory, makes read_file return a CommandResult with success false
and a non-empty error (the block reason or the strict-mode violation), and the
file is never opened: the result is the same whatever the filesystem answers
(existence, file-ness, size, text sniff, read outcome) would have been. -/
theorem c1_read_file_rejects_blocked_or_outside
    (filepath : String) (normalized base : List String) (home : String)
    (ex isFile : Bool) (sz : Nat) (isTxt : Bool) (rd : ReadOutcome) (maxLines : Nat)
    (hbad : blockedHit normalized home ≠ none ∨ base.isPrefixOf normalized = false) :
    (read_file filepath normalized base home ex isFile sz isTxt rd maxLines).success = false ∧
    errNonempty (read_file filepath normalized base home ex isFile sz isTxt rd maxLines) = true ∧
    ∀ ex2 isFile2 sz2 isTxt2 rd2,
      read_file filepath normalized base home ex2 isFile2 sz2 isTxt2 rd2 maxLines =
        read_file filepath normalized base home ex isFile sz isTxt rd maxLines := by
  obtain ⟨r, hr⟩ := unsafe_of_bad hbad
  have hrne : r ≠ "" := reason_ne_empty hr
  refine ⟨?_, ?_, ?_⟩
  · simp [read_file, hr]
  · simp [read_file, hr, errNonempty, hrne]
  · intro ex2 isFile2 sz2 isTxt2 rd2
    simp [read_file, hr]

/-- Witness for C1: read("/etc/passwd") with cwd /root/workspace and home
/root hits the denylist; whatever the filesystem would answer, the call fails
with a non-empty error and never consults it. -/
theorem c1_witness :
    (blockedHit ["etc", "passwd"] "/root" ≠ none ∨
      (["root", "workspace"] : List String).isPrefixOf ["etc", "passwd"] = false) ∧
    ((read_file "/etc/passwd" ["etc", "passwd"] ["root", "workspace"] "/root"
        true true 42 true (ReadOutcome.ok ["root:x:0:0:root:/root:/bin/bash\n"]) 100).success = false ∧
      errNonempty (read_file "/etc/passwd" ["etc", "passwd"] ["root", "workspace"] "/root"
        true true 42 true (ReadOutcome.ok ["root:x:0:0:root:/root:/bin/bash\n"]) 100) = true ∧
      ∀ ex2 isFile2 sz2 isTxt2 rd2,
        read_file "/etc/passwd" ["etc", "passwd"] ["root", "workspace"] "/root"
            ex2 isFile2 sz2 isTxt2 rd2 100 =
          read_file "/etc/passwd" ["etc", "passwd"] ["root", "workspace"] "/root"
            true true 42 true (ReadOutcome.ok ["root:x:0:0:root:/root:/bin/bash\n"]) 100) :=
  ⟨Or.inl (by decide),
    c1_read_file_rejects_blocked_or_outside "/etc/passwd" ["etc", "passwd"]
      ["root", "workspace"] "/root" true true 42 true
      (ReadOutcome.ok ["root:x:0:0:root:/root:/bin/bash\n"]) 100 (Or.inl (by decide))⟩

/-! ## Claim C8 -/

theorem run_error_set (cmd : List String) (t : Nat) (o : RunOutcome)
    (h : (run_safe_command cmd t o).success = false) :
    (run_safe_command cmd t o).error ≠ none := by
  cases o with
  | completed rc out err =>
    simp only [run_safe_command] at h ⊢
    rw [h]
    simp
  | timedOut => simp [run_safe_command]
  | notFound => simp [run_safe_command]
  | exc m => simp [run_safe_command]

theorem run_empty_error_cases (cmd : List String) (t : Nat) (o : RunOutcome)
    (hs : (run_safe_command cmd t o).success = false)
    (he : errNonempty (run_safe_command cmd t o) = false) :
    (∃ rc out, o = RunOutcome.completed rc out "" ∧ rc ≠ 0) ∨ o = RunOutcome.exc "" := by
  cases o with
  | completed rc out err =>
    simp only [run_safe_command] at hs he
    rw [hs] at he
    simp only [errNonempty] at he
    simp at he
    refine Or.inl ⟨rc, out, ?_, ?_⟩
    · rw [he]
    · intro hc
      rw [hc] at hs
      simp at hs
  | timedOut =>
    exfalso
    simp only [run_safe_command, errNonempty] at he
    simp at he
    exact append_ne_empty "Comando expirou após " (toString t ++ "s") (by decide)
      (by rw [String.append_assoc] at he; exact he)
  | notFound =>
    exfalso
    simp only [run_safe_command, errNonempty] at he
    simp at he
    exact append_ne_empty "Comando não encontrado: " (cmd.head?.getD "") (by decide) he
  | exc m =>
    simp only [run_safe_command, errNonempty] at he
    simp at he
    exact Or.inr (by rw [he])

/-- C8 (amended): a failing CommandResult from any whitelisted inspection
operation always has its error field set; the error text is moreover
non-empty, except where the code passes through, verbatim, the stderr of a
child process that exited non-zero or a caught exception's rendered message,
both of which may be empty. -/
theorem c8_failure_error_set :
    (∀ cmd t o, (run_safe_command cmd t o).success = false →
      (run_safe_command cmd t o).error ≠ none ∧
      (errNonempty (run_safe_command cmd t o) = false →
        (∃ rc out, o = RunOutcome.completed rc out "" ∧ rc ≠ 0) ∨ o = RunOutcome.exc "")) ∧
    (∀ fp nz b h ex d l, (∀ m, l = ListingOutcome.exc m → m ≠ "") →
      (list_directory fp nz b h ex d l).success = false →
      errNonempty (list_directory fp nz b h ex d l) = true) ∧
    (∀ fp nz b h ex fl sz tx rd ml, (∀ m, rd = ReadOutcome.exc m → m ≠ "") →
      (read_file fp nz b h ex fl sz tx rd ml).success = false →
      errNonempty (read_file fp nz b h ex fl sz tx rd ml) = true) ∧
    (∀ cwd, (get_current_directory cwd).success = true) ∧
    (∀ g o, (get_git_status g o).success = false → (get_git_status g o).error ≠ none) ∧
    (∀ n g o, ((get_git_log n g o).1).success = false → ((get_git_log n g o).1).error ≠ none) := by
  refine ⟨fun cmd t o hs => ⟨run_error_set cmd t o hs, run_empty_error_cases cmd t o hs⟩,
    ?_, ?_, fun cwd => rfl, ?_, ?_⟩
  · intro fp nz b h ex d l hexc hs
    rcases hsafe : is_path_safe nz b h with ⟨safe, reason⟩
    cases safe with
    | false =>
      have hrne := reason_ne_empty hsafe
      simp [list_directory, hsafe, errNonempty, hrne]
    | true =>
      simp only [list_directory, hsafe] at hs ⊢
      by_cases hex : ex = false
      · simp [hex, errNonempty]
        exact append_ne_empty "Caminho não existe: " fp (by decide)
      · simp only [hex, if_false] at hs ⊢
        by_cases hd : d = false
        · simp [hd, errNonempty]
          exact append_ne_empty "Não é um diretório: " fp (by decide)
        · simp only [hd, if_false] at hs ⊢
          cases l with
          | exc m =>
            have hm := hexc m rfl
            simp [errNonempty, hm]
          | ok entries => simp at hs
  · intro fp nz b h ex fl sz tx rd ml hexc hs
    rcases hsafe : is_path_safe nz b h with ⟨safe, reason⟩
    cases safe with
    | false =>
      have hrne := reason_ne_empty hsafe
      simp [read_file, hsafe, errNonempty, hrne]
    | true =>
      simp only [read_file, hsafe] at hs ⊢
      by_cases hex : ex = false
      · simp [hex, errNonempty]
        exact append_ne_empty "Ficheiro não existe: " fp (by decide)
      · simp only [hex, if_false] at hs ⊢
        by_cases hfl : fl = false
        · simp [hfl, errNonempty]
          exact append_ne_empty "Não é um ficheiro: " fp (by decide)
        · simp only [hfl, if_false] at hs ⊢
          by_cases hsz : MAX_FILE_SIZE < sz
          · simp [hsz, errNonempty]
          · simp only [hsz, if_false] at hs ⊢
            by_cases htx : tx = false
            · simp [htx, errNonempty]
            · simp only [htx, if_false] at hs ⊢
              cases rd with
              | exc m =>
                have hm := hexc m rfl
                simp [errNonempty, hm]
              | ok lines => simp at hs
  · intro g o hs
    cases g with
    | false => simp [get_git_status]
    | true =>
      simp only [get_git_status, if_true] at hs ⊢
      exact run_error_set _ _ o hs
  · intro n g o hs
    cases g with
    | false => simp [get_git_log]
    | true =>
      simp only [get_git_log, if_true] at hs ⊢
      exact run_error_set _ _ o hs

/-- Witness for C8: listing a directory outside the working directory under
strict mode fails and carries a non-empty error. -/
theorem c8_witness :
    (list_directory "/tmp" ["tmp"] ["home", "u"] "/root" true true
        (ListingOutcome.ok [])).success = false ∧
    errNonempty (list_directory "/tmp" ["tmp"] ["home", "u"] "/root" true true
        (ListingOutcome.ok [])) = true :=
  ⟨by decide,
    c8_failure_error_set.2.1 "/tmp" ["tmp"] ["home", "u"] "/root" true true
      (ListingOutcome.ok []) (fun m hm => ListingOutcome.noConfusion hm) (by decide)⟩

/-- Counterexample to C8 as stated: a child process that exits non-zero with
empty captured stderr yields a failing CommandResult whose error text is the
empty string. -/
theorem c8_counterexample :
    (run_safe_command ["git", "log", "-5", "--oneline"] 5
        (RunOutcome.completed 1 "" "")).success = false ∧
    errNonempty (run_safe_command ["git", "log", "-5", "--oneline"] 5
        (RunOutcome.completed 1 "" "")) = false := by decide

/-! ## Claim C10 -/

/-- C10: for every integer n, get_git_log (when git is available) hands
run_safe_command the argv ["git", "log", "-<k>", "--oneline"] where k is n
clamped into 1..50 inclusive. -/
theorem c10_git_log_clamped (n : Int) (o : RunOutcome) :
    (get_git_log n true o).2 = some ["git", "log", "-" ++ toString (clampLog n), "--oneline"] ∧
    1 ≤ clampLog n ∧ clampLog n ≤ 50 ∧
    (get_git_log n true o).1 = run_safe_command (gitLogArgs n) COMMAND_TIMEOUT o := by
  refine ⟨by simp [get_git_log, gitLogArgs], ?_, ?_, by simp [get_git_log]⟩
  · exact le_max_left 1 _
  · exact max_le (by norm_num) (min_le_right n 50)

/-! ## Claims C5 and C6 -/

/-- Counterexample to C5 as stated: exit code 2 with buffered stderr "\n" is a
non-zero exit with non-empty buffered stderr, yet the call returns the partial
stdout as a success instead of the stderr text as error (the code only takes
the stderr branch when the stderr strips to something non-empty). -/
theorem c5_counterexample :
    (2 : Int) ≠ 0 ∧
    (["\n"] : List String).filter (fun c => c != "") ≠ [] ∧
    query_with_streaming 2 ["partial"] ["\n"] = (some "partial", none) := by decide

/-- C5 (amended): on a non-zero exit whose buffered stderr strips to a
non-empty text, the streaming call returns that stripped stderr text as the
error and discards the accumulated stdout, whatever stdout held. -/
theorem c5_stderr_wins (rc : Int) (outs errs : List String)
    (h1 : rc ≠ 0)
    (h2 : strip (String.join (errs.filter (fun c => c != ""))) ≠ "") :
    query_with_streaming rc outs errs =
      (none, some (strip (String.join (errs.filter (fun c => c != ""))))) := by
  have hne : errs.filter (fun c => c != "") ≠ [] := by
    intro hfe
    apply h2
    rw [hfe]
    rfl
  unfold query_with_streaming
  rw [if_pos ⟨h1, hne, h2⟩]

/-- Witness for C5 (amended): exit code 2, stderr "model not available",
stdout "hi" → the error is the stderr text and the stdout is discarded. -/
theorem c5_witness :
    ((2 : Int) ≠ 0) ∧
    strip (String.join ((["model not available"] : List String).filter (fun c => c != ""))) ≠ "" ∧
    query_with_streaming 2 ["hi"] ["model not available"] =
      (none, some (strip (String.join ((["model not available"] : List String).filter (fun c => c != ""))))) :=
  ⟨by decide, by decide, c5_stderr_wins 2 ["hi"] ["model not available"] (by decide) (by decide)⟩

/-- C6: a child process whose accumulated stdout is empty and which produced
no stderr yields the explicit "Sem resposta" error, never an empty success. -/
theorem c6_empty_response (rc : Int) (outs : List String)
    (h : outs.filter (fun c => c != "") = []) :
    query_with_streaming rc outs [] = (none, some "Sem resposta") := by
  have hno : ¬(rc ≠ 0 ∧ ([] : List String).filter (fun c => c != "") ≠ [] ∧
      strip (String.join (([] : List String).filter (fun c => c != ""))) ≠ "") := by
    intro hc
    exact hc.2.1 rfl
  unfold query_with_streaming
  rw [if_neg hno, if_pos h]

/-- Witness for C6: no stdout chunks, no stderr, exit 0 → "Sem resposta". -/
theorem c6_witness :
    (([] : List String).filter (fun c => c != "") = []) ∧
    query_with_streaming 0 [] [] = (none, some "Sem resposta") :=
  ⟨by decide, c6_empty_response 0 [] (by decide)⟩

/-! ## Claims C3, C4 and C9: the built command -/

theorem getLast_app2 {α : Type} (l : List α) (a b : α) :
    (l ++ [a, b]).getLast? = some b := by
  rw [List.getLast?_append]
  rfl

theorem not_mem_filter_c (l : List String) :
    "-c" ∉ l.filter (fun c => c != "-c") := by
  intro hm
  have := List.of_mem_filter hm
  simp at this

theorem not_mem_retry {sys : String} (l : List String) (hsys : sys ≠ "-c") :
    "-c" ∉ retryCmd l sys := by
  intro hm
  rcases List.mem_append.mp hm with h1 | h2
  · exact not_mem_filter_c l h1
  · rcases List.mem_cons.mp h2 with h3 | h4
    · exact absurd h3 (by decide)
    · rcases List.mem_singleton.mp h4 with h5
      exact (Ne.symm hsys) h5

theorem launched_rewrite_eq (py sys prompt : String) (mid : Option String) :
    launchedCmd py mid true false sys prompt =
      (buildCmd py mid true sys prompt).filter (fun c => c != "-c") ++ ["--system", sys] := by
  simp [launchedCmd]

/-- C3: when continuation is requested but the session marker is absent, the
command actually launched is a fresh request: the continuation switch -c is
absent, a system-prompt argument is present, and (whenever none of the
runner path, the prompt and the resolved model id is the literal string "-c")
the launched command is a permutation of the command built for a fresh
request. -/
theorem c3_marker_absent_is_fresh (py sys prompt : String) (mid : Option String)
    (hpy : py ≠ "-c") (hprompt : prompt ≠ "-c") (hsys : sys ≠ "-c")
    (hmid : ∀ m, mid = some m → m ≠ "-c") :
    "-c" ∉ launchedCmd py mid true false sys prompt ∧
    "--system" ∈ launchedCmd py mid true false sys prompt ∧
    List.Perm (launchedCmd py mid true false sys prompt) (buildCmd py mid false sys prompt) := by
  refine ⟨?_, ?_, ?_⟩
  · rw [launched_rewrite_eq]
    exact not_mem_retry _ hsys
  · rw [launched_rewrite_eq]
    exact List.mem_append.mpr (Or.inr (List.mem_cons_self _ _))
  · rw [launched_rewrite_eq]
    have hfil : (buildCmd py mid true sys prompt).filter (fun c => c != "-c") =
        [py, "-m", "llm"] ++ modelPart mid ++ [prompt] := by
      cases mid with
      | none =>
        simp [buildCmd, modelPart, List.filter_append, List.filter,
          bne_true_of_ne hpy, bne_true_of_ne hprompt]
      | some m =>
        have hm := hmid m rfl
        simp [buildCmd, modelPart, List.filter_append, List.filter,
          bne_true_of_ne hpy, bne_true_of_ne hprompt, bne_true_of_ne hm]
    rw [hfil]
    have he1 : [py, "-m", "llm"] ++ modelPart mid ++ [prompt] ++ ["--system", sys] =
        [py, "-m", "llm"] ++ ((modelPart mid ++ [prompt]) ++ ["--system", sys]) := by
      simp [List.append_assoc]
    have he2 : buildCmd py mid false sys prompt =
        [py, "-m", "llm"] ++ (["--system", sys] ++ (modelPart mid ++ [prompt])) := by
      simp [buildCmd, List.append_assoc]
    rw [he1, he2]
    exact List.Perm.append_left [py, "-m", "llm"] List.perm_append_comm

/-- Witness for C3: concrete marker-absent continuation request rewritten to a
fresh one. -/
theorem c3_witness :
    "-c" ∉ launchedCmd "python" none true false "SYS" "hi" ∧
    "--system" ∈ launchedCmd "python" none true false "SYS" "hi" ∧
    List.Perm (launchedCmd "python" none true false "SYS" "hi")
      (buildCmd "python" none false "SYS" "hi") :=
  c3_marker_absent_is_fresh "python" "SYS" "hi" none (by decide) (by decide) (by decide)
    (fun m hm => Option.noConfusion hm)

/-- Counterexample to C4 as stated: with the prompt being the literal string
"-c", the fresh-path command contains both the string "-c" and a --system
argument (the trailing "-c" is even parsed as the continuation switch by the
underlying runner's CLI parser, which accepts options after positional
arguments). -/
theorem c4_counterexample :
    "-c" ∈ launchedCmd "python" none false false "contexto" "-c" ∧
    "--system" ∈ launchedCmd "python" none false false "contexto" "-c" := by decide

/-- C4 (amended): as long as none of the runner path, the prompt, the
system-prompt text and the resolved model id collides with the literal
switch strings "-c" / "--system", no built command — on the fresh path, the
continuation path, the marker-absent rewrite path or the retry path —
contains the continuation switch together with a --system argument. -/
theorem c4_no_cont_with_system (py sys prompt : String) (mid : Option String)
    (cont hist : Bool)
    (hpy1 : py ≠ "-c") (hpy2 : py ≠ "--system")
    (hpr1 : prompt ≠ "-c") (hpr2 : prompt ≠ "--system")
    (hsys : sys ≠ "-c")
    (hmid : ∀ m, mid = some m → m ≠ "-c" ∧ m ≠ "--system") :
    ¬("-c" ∈ launchedCmd py mid cont hist sys prompt ∧
      "--system" ∈ launchedCmd py mid cont hist sys prompt) ∧
    ¬("-c" ∈ retryCmd (launchedCmd py mid cont hist sys prompt) sys ∧
      "--system" ∈ retryCmd (launchedCmd py mid cont hist sys prompt) sys) := by
  have hpy1' : "-c" ≠ py := Ne.symm hpy1
  have hpy2' : "--system" ≠ py := Ne.symm hpy2
  have hpr1' : "-c" ≠ prompt := Ne.symm hpr1
  have hpr2' : "--system" ≠ prompt := Ne.symm hpr2
  have hsys' : "-c" ≠ sys := Ne.symm hsys
  constructor
  · rintro ⟨hc, hs⟩
    cases cont with
    | false =>
      cases mid with
      | none => simp [launchedCmd, buildCmd, modelPart, hpy1', hpr1', hsys'] at hc
      | some m =>
        have hm' : "-c" ≠ m := Ne.symm (hmid m rfl).1
        simp [launchedCmd, buildCmd, modelPart, hpy1', hpr1', hsys', hm'] at hc
    | true =>
      cases hist with
      | true =>
        cases mid with
        | none => simp [launchedCmd, buildCmd, modelPart, hpy2', hpr2'] at hs
        | some m =>
          have hm' : "--system" ≠ m := Ne.symm (hmid m rfl).2
          simp [launchedCmd, buildCmd, modelPart, hpy2', hpr2', hm'] at hs
      | false =>
        rw [launched_rewrite_eq] at hc
        exact not_mem_retry _ hsys hc
  · rintro ⟨hc, hs⟩
    exact not_mem_retry _ hsys hc

/-- Witness for C4 (amended): continuation with history on a concrete command
never mixes -c with --system, on the launch and on the retry. -/
theorem c4_witness :
    ¬("-c" ∈ launchedCmd "python" none true true "S" "hi" ∧
      "--system" ∈ launchedCmd "python" none true true "S" "hi") ∧
    ¬("-c" ∈ retryCmd (launchedCmd "python" none true true "S" "hi") "S" ∧
      "--system" ∈ retryCmd (launchedCmd "python" none true true "S" "hi") "S") :=
  c4_no_cont_with_system "python" "S" "hi" none true true (by decide) (by decide)
    (by decide) (by decide) (by decide) (fun m hm => Option.noConfusion hm)

/-- Counterexample to C9 as stated: on the marker-absent rewrite path the
launched argv is ["python", "-m", "llm", "hi", "--system", "SYS"] — the
system-prompt arguments come after the prompt, so the argv does not have the
claimed shape [runner-entry, (-c | --system text), (-m model)?, prompt]. -/
theorem c9_counterexample :
    ¬ argvWellFormed "python" "hi" (launchedCmd "python" none true false "SYS" "hi") := by
  rintro ⟨sp, mp, hsp, hmp, heq⟩
  have hl : (launchedCmd "python" none true false "SYS" "hi").getLast? = some "SYS" := by decide
  rw [heq] at hl
  rw [show [("python" : String), "-m", "llm"] ++ sp ++ mp ++ ["hi"] =
      ([("python" : String), "-m", "llm"] ++ sp ++ mp) ++ ["hi"] from by
    simp [List.append_assoc]] at hl
  rw [List.getLast?_concat] at hl
  exact absurd (Option.some.inj hl) (by decide)

/-- C9 (amended): on the fresh path and the continuation-with-history path the
argv is [runner-entry, (-c | --system text), (-m model)?, prompt] with the
prompt as the unmodified final argument; on the marker-absent rewrite path and
on the retry path the continuation switch is filtered out and the
system-prompt arguments are appended after the prompt, so the final argument
is the system-prompt text instead. -/
theorem c9_argv_shape (py sys prompt : String) (mid : Option String) :
    (∀ hist, launchedCmd py mid false hist sys prompt =
      [py, "-m", "llm", "--system", sys] ++ modelPart mid ++ [prompt]) ∧
    launchedCmd py mid true true sys prompt =
      [py, "-m", "llm", "-c"] ++ modelPart mid ++ [prompt] ∧
    (launchedCmd py mid true false sys prompt).getLast? = some sys ∧
    (∀ l : List String, (retryCmd l sys).getLast? = some sys) := by
  refine ⟨?_, ?_, ?_, ?_⟩
  · intro hist
    simp [launchedCmd, buildCmd]
  · simp [launchedCmd, buildCmd]
  · rw [launched_rewrite_eq]
    exact getLast_app2 _ "--system" sys
  · intro l
    exact getLast_app2 _ "--system" sys

/-! ## Scanner lemmas for the inline command expander -/

theorem takeUntil_decomp : ∀ {cs s r : List Char},
    takeUntilRBracket cs = some (s, r) → cs = s ++ ']' :: r ∧ ']' ∉ s := by
  intro cs
  induction cs with
  | nil => intro s r h; exact absurd h (by simp [takeUntilRBracket])
  | cons c cs ih =>
    intro s r h
    unfold takeUntilRBracket at h
    by_cases hc : c = ']'
    · rw [if_pos hc] at h
      rw [Option.some.injEq, Prod.mk.injEq] at h
      obtain ⟨h1, h2⟩ := h
      subst h1
      subst h2
      constructor
      · rw [hc]
        rfl
      · simp
    · rw [if_neg hc] at h
      cases ht : takeUntilRBracket cs with
      | none => rw [ht] at h; exact absurd h (by simp)
      | some p =>
        obtain ⟨s', r'⟩ := p
        rw [ht] at h
        simp only [Option.map_some'] at h
        rw [Option.some.injEq, Prod.mk.injEq] at h
        obtain ⟨h1, h2⟩ := h
        subst h1
        subst h2
        obtain ⟨hdec, hni⟩ := ih ht
        constructor
        · rw [hdec]
          rfl
        · intro hm
          rcases List.mem_cons.mp hm with h3 | h4
          · exact hc h3.symm
          · exact hni h4

theorem takeUntil_complete : ∀ (s r : List Char), ']' ∉ s →
    takeUntilRBracket (s ++ ']' :: r) = some (s, r) := by
  intro s
  induction s with
  | nil => intro r h; simp [takeUntilRBracket]
  | cons c cs ih =>
    intro r h
    have hc : ¬ c = ']' := fun hcc => h (by rw [hcc]; exact List.mem_cons_self _ _)
    have h2 : ']' ∉ cs := fun hm => h (List.mem_cons_of_mem c hm)
    show takeUntilRBracket (c :: (cs ++ ']' :: r)) = some (c :: cs, r)
    unfold takeUntilRBracket
    rw [if_neg hc, ih r h2]
    rfl

theorem scanStep_decomp {cs s a : List Char} (h : scanStep cs = some (s, a)) :
    cs = "[CMD:".data ++ (s ++ ']' :: a) ∧ s ≠ [] ∧ ']' ∉ s := by
  unfold scanStep at h
  by_cases hp : cs.take 5 = "[CMD:".data
  case neg => rw [if_neg hp] at h; exact absurd h (by simp)
  case pos =>
    rw [if_pos hp] at h
    cases ht : takeUntilRBracket (cs.drop 5) with
    | none => rw [ht] at h; exact absurd h (by simp)
    | some p =>
      obtain ⟨s', a'⟩ := p
      rw [ht] at h
      dsimp only at h
      by_cases hs : s' = []
      · rw [if_pos hs] at h; exact absurd h (by simp)
      · rw [if_neg hs] at h
        rw [Option.some.injEq, Prod.mk.injEq] at h
        obtain ⟨h1, h2⟩ := h
        subst h1
        subst h2
        obtain ⟨hdec, hni⟩ := takeUntil_decomp ht
        refine ⟨?_, hs, hni⟩
        conv_lhs => rw [← List.take_append_drop 5 cs]
        rw [hp, hdec]

theorem scanStep_mk {s : List Char} (hne : s ≠ []) (hni : ']' ∉ s) (a : List Char) :
    scanStep ("[CMD:".data ++ (s ++ ']' :: a)) = some (s, a) := by
  have hlen : ("[CMD:".data).length = 5 := by decide
  have ht1 : ("[CMD:".data ++ (s ++ ']' :: a)).take 5 = "[CMD:".data := by
    rw [← hlen]
    exact List.take_left _ _
  have ht2 : ("[CMD:".data ++ (s ++ ']' :: a)).drop 5 = s ++ ']' :: a := by
    rw [← hlen]
    exact List.drop_left _ _
  unfold scanStep
  rw [ht1, ht2, takeUntil_complete s a hni]
  simp [hne]

theorem scanStep_append {cs s a : List Char} (t : List Char)
    (h : scanStep cs = some (s, a)) : scanStep (cs ++ t) = some (s, a ++ t) := by
  obtain ⟨hdec, hne, hni⟩ := scanStep_decomp h
  rw [hdec]
  rw [show ("[CMD:".data ++ (s ++ ']' :: a)) ++ t = "[CMD:".data ++ (s ++ ']' :: (a ++ t)) from by
    simp [List.append_assoc]]
  exact scanStep_mk hne hni (a ++ t)

theorem scanStep_length {cs s a : List Char} (h : scanStep cs = some (s, a)) :
    cs.length = 6 + s.length + a.length ∧ 1 ≤ s.length := by
  obtain ⟨hdec, hne, _⟩ := scanStep_decomp h
  have h5 : ("[CMD:".data).length = 5 := by decide
  constructor
  · rw [hdec]
    simp [List.length_append, h5]
    omega
  · cases s with
    | nil => exact absurd rfl hne
    | cons _ _ => simp

/-! ## Fuel irrelevance and unfolding equations -/

theorem countMatchesF_irrel : ∀ (f1 : Nat) {cs : List Char} (f2 : Nat),
    cs.length ≤ f1 → cs.length ≤ f2 → countMatchesF f1 cs = countMatchesF f2 cs := by
  intro f1
  induction f1 with
  | zero =>
    intro cs f2 h1 h2
    have hnil : cs = [] := List.eq_nil_of_length_eq_zero (Nat.le_zero.mp h1)
    subst hnil
    cases f2 <;> rfl
  | succ f1 ih =>
    intro cs f2 h1 h2
    cases cs with
    | nil => cases f2 <;> rfl
    | cons c rest =>
      obtain ⟨f2', rfl⟩ : ∃ f2', f2 = f2' + 1 := by
        cases f2 with
        | zero => simp at h2
        | succ k => exact ⟨k, rfl⟩
      simp only [List.length_cons] at h1 h2
      simp only [countMatchesF]
      cases hs : scanStep (c :: rest) with
      | some p =>
        obtain ⟨s, after⟩ := p
        obtain ⟨hlen, hs1⟩ := scanStep_length hs
        simp only [List.length_cons] at hlen
        have ha1 : after.length ≤ f1 := by omega
        have ha2 : after.length ≤ f2' := by omega
        exact congrArg (fun x => 1 + x) (ih f2' ha1 ha2)
      | none =>
        have hr1 : rest.length ≤ f1 := by omega
        have hr2 : rest.length ≤ f2' := by omega
        exact ih f2' hr1 hr2

theorem subAuxF_irrel (f : String → Option String → String) :
    ∀ (f1 : Nat) {cs : List Char} {b : Nat} (f2 : Nat),
    cs.length ≤ f1 → cs.length ≤ f2 → subAuxF f f1 cs b = subAuxF f f2 cs b := by
  intro f1
  induction f1 with
  | zero =>
    intro cs b f2 h1 h2
    have hnil : cs = [] := List.eq_nil_of_length_eq_zero (Nat.le_zero.mp h1)
    subst hnil
    cases f2 <;> rfl
  | succ f1 ih =>
    intro cs b f2 h1 h2
    cases cs with
    | nil => cases f2 <;> rfl
    | cons c rest =>
      obtain ⟨f2', rfl⟩ : ∃ f2', f2 = f2' + 1 := by
        cases f2 with
        | zero => simp at h2
        | succ k => exact ⟨k, rfl⟩
      simp only [List.length_cons] at h1 h2
      simp only [subAuxF]
      by_cases hb : b = 0
      · simp [hb]
      · rw [if_neg hb, if_neg hb]
        cases hs : scanStep (c :: rest) with
        | some p =>
          obtain ⟨s, after⟩ := p
          obtain ⟨hlen, hs1⟩ := scanStep_length hs
          simp only [List.length_cons] at hlen
          have ha1 : after.length ≤ f1 := by omega
          have ha2 : after.length ≤ f2' := by omega
          simp only [ih f2' ha1 ha2]
        | none =>
          have hr1 : rest.length ≤ f1 := by omega
          have hr2 : rest.length ≤ f2' := by omega
          simp only [ih f2' hr1 hr2]

theorem countMatches_cons_none {c : Char} {rest : List Char}
    (h : scanStep (c :: rest) = none) : countMatches (c :: rest) = countMatches rest := by
  show countMatchesF (rest.length + 1) (c :: rest) = countMatches rest
  simp only [countMatchesF, h]
  rfl

theorem countMatches_some {cs s after : List Char} (h : scanStep cs = some (s, after)) :
    countMatches cs = 1 + countMatches after := by
  cases cs with
  | nil =>
    rw [show scanStep ([] : List Char) = none from by decide] at h
    exact Option.noConfusion h
  | cons c rest =>
    obtain ⟨hlen, hs1⟩ := scanStep_length h
    simp only [List.length_cons] at hlen
    show countMatchesF (rest.length + 1) (c :: rest) = _
    simp only [countMatchesF, h]
    have hle : after.length ≤ rest.length := by omega
    exact congrArg (fun x => 1 + x) (countMatchesF_irrel rest.length after.length hle le_rfl)

theorem subRun_nil (f : String → Option String → String) (b : Nat) :
    subRun f [] b = some ([], []) := rfl

theorem subRun_zero (f : String → Option String → String) (cs : List Char) :
    subRun f cs 0 = some (cs, []) := by
  cases cs with
  | nil => rfl
  | cons c rest => simp [subRun, subAuxF]

theorem subRun_cons_none (f : String → Option String → String) {c : Char} {rest : List Char}
    (h : scanStep (c :: rest) = none) (b : Nat) :
    subRun f (c :: rest) b = (subRun f rest b).map (fun p => (c :: p.1, p.2)) := by
  cases b with
  | zero =>
    rw [subRun_zero, subRun_zero]
    rfl
  | succ b' =>
    show subAuxF f (rest.length + 1) (c :: rest) (b' + 1) = _
    simp only [subAuxF, h, if_neg (Nat.succ_ne_zero b')]
    rfl

theorem subRun_some (f : String → Option String → String) {cs s after : List Char}
    (h : scanStep cs = some (s, after)) {b : Nat} (hb : b ≠ 0) :
    subRun f cs b =
      match replaceCommand f s with
      | none => none
      | some (repl, calls) =>
        (subRun f after (b - 1)).map (fun p => (repl.data ++ p.1, calls ++ p.2)) := by
  cases cs with
  | nil =>
    rw [show scanStep ([] : List Char) = none from by decide] at h
    exact Option.noConfusion h
  | cons c rest =>
    obtain ⟨hlen, hs1⟩ := scanStep_length h
    simp only [List.length_cons] at hlen
    show subAuxF f (rest.length + 1) (c :: rest) b = _
    simp only [subAuxF, h, if_neg hb]
    have hle : after.length ≤ rest.length := by omega
    simp only [subAuxF_irrel f rest.length after.length hle le_rfl]
    rfl

/-- Splitting a text at the point where the replacement budget runs out: when
at least b matches exist, the text divides into a processed part (consuming
the whole budget) and an untouched remainder carrying the leftover matches,
and the bounded rewrite is the rewrite of the processed part with the
remainder appended verbatim. -/
theorem subRun_split (cs : List Char) (b : Nat) (h : b ≤ countMatches cs) :
    ∃ pre post, cs = pre ++ post ∧ countMatches cs = b + countMatches post ∧
      ∀ f, subRun f cs b = (subRun f pre b).map (fun p => (p.1 ++ post, p.2)) := by
  cases b with
  | zero =>
    refine ⟨[], cs, rfl, (Nat.zero_add _).symm, fun f => ?_⟩
    rw [subRun_zero, subRun_nil]
    rfl
  | succ b' =>
    cases hcs : cs with
    | nil =>
      rw [hcs] at h
      simp [countMatches, countMatchesF] at h
    | cons c rest =>
      cases hs : scanStep (c :: rest) with
      | none =>
        have hcm : countMatches (c :: rest) = countMatches rest := countMatches_cons_none hs
        have h' : b' + 1 ≤ countMatches rest := by
          rw [hcs, hcm] at h
          exact h
        have hrec := subRun_split rest (b' + 1) h'
        obtain ⟨pre, post, heq, hcnt, hsub⟩ := hrec
        refine ⟨c :: pre, post, by rw [heq]; rfl, by rw [hcm, hcnt], fun f => ?_⟩
        have hs' : scanStep (c :: pre) = none := by
          cases h2 : scanStep (c :: pre) with
          | none => rfl
          | some p =>
            obtain ⟨s, a⟩ := p
            have h3 := scanStep_append post h2
            rw [show (c :: pre) ++ post = c :: rest from by rw [heq]; rfl] at h3
            rw [hs] at h3
            exact Option.noConfusion h3
        rw [subRun_cons_none f hs, subRun_cons_none f hs', hsub f]
        cases subRun f pre (b' + 1) with
        | none => rfl
        | some p => simp
      | some p =>
        obtain ⟨s, after⟩ := p
        obtain ⟨hdec, hsne, hsni⟩ := scanStep_decomp hs
        have hcm : countMatches (c :: rest) = 1 + countMatches after := countMatches_some hs
        have h' : b' ≤ countMatches after := by
          rw [hcs, hcm] at h
          omega
        obtain ⟨hlen1, hlen2⟩ := scanStep_length hs
        simp only [List.length_cons] at hlen1
        have hrec := subRun_split after b' h'
        obtain ⟨pre, post, heq, hcnt, hsub⟩ := hrec
        refine ⟨"[CMD:".data ++ (s ++ ']' :: pre), post, ?_, ?_, fun f => ?_⟩
        · rw [hdec, heq]
          simp [List.append_assoc]
        · rw [hcm, hcnt]
          omega
        · have hsp : scanStep ("[CMD:".data ++ (s ++ ']' :: pre)) = some (s, pre) :=
            scanStep_mk hsne hsni pre
          rw [subRun_some f hs (Nat.succ_ne_zero b'), subRun_some f hsp (Nat.succ_ne_zero b')]
          simp only [Nat.succ_sub_one]
          cases replaceCommand f s with
          | none => rfl
          | some q =>
            obtain ⟨repl, calls⟩ := q
            dsimp only
            rw [hsub f]
            cases subRun f pre b' with
            | none => rfl
            | some p2 => simp [List.append_assoc]
  termination_by cs.length
  decreasing_by
  all_goals (rw [hcs]; simp only [List.length_cons] at *; omega)

theorem replaceCommand_calls {f : String → Option String → String} {content : List Char}
    {repl : String} {calls : List (String × Option String)}
    (h : replaceCommand f content = some (repl, calls)) :
    ∀ ca ∈ calls, ca.1 ∈ ALLOWED_COMMANDS := by
  unfold replaceCommand at h
  cases hsp : splitFirstToken (pyStrip content) with
  | none => rw [hsp] at h; exact absurd h (by simp)
  | some p =>
    obtain ⟨tok, argOpt⟩ := p
    rw [hsp] at h
    dsimp only at h
    by_cases hm : lowerStr tok ∈ ALLOWED_COMMANDS
    · rw [if_pos hm] at h
      rw [Option.some.injEq, Prod.mk.injEq] at h
      obtain ⟨h1, h2⟩ := h
      subst h2
      intro ca hca
      rw [List.mem_singleton.mp hca]
      exact hm
    · rw [if_neg hm] at h
      rw [Option.some.injEq, Prod.mk.injEq] at h
      obtain ⟨h1, h2⟩ := h
      subst h2
      intro ca hca
      exact absurd hca (List.not_mem_nil ca)

theorem subAuxF_calls (f : String → Option String → String) :
    ∀ (fuel : Nat) (cs : List Char) (b : Nat) (out : List Char)
      (calls : List (String × Option String)),
    subAuxF f fuel cs b = some (out, calls) → ∀ ca ∈ calls, ca.1 ∈ ALLOWED_COMMANDS := by
  intro fuel
  induction fuel with
  | zero =>
    intro cs b out calls h ca hca
    cases cs with
    | nil =>
      rw [show subAuxF f 0 ([] : List Char) b = some ([], []) from rfl] at h
      rw [Option.some.injEq, Prod.mk.injEq] at h
      obtain ⟨h1, h2⟩ := h
      subst h2
      exact absurd hca (List.not_mem_nil ca)
    | cons c rest =>
      rw [show subAuxF f 0 (c :: rest) b = some (c :: rest, []) from rfl] at h
      rw [Option.some.injEq, Prod.mk.injEq] at h
      obtain ⟨h1, h2⟩ := h
      subst h2
      exact absurd hca (List.not_mem_nil ca)
  | succ fuel ih =>
    intro cs b out calls h ca hca
    cases cs with
    | nil =>
      rw [show subAuxF f (fuel + 1) ([] : List Char) b = some ([], []) from rfl] at h
      rw [Option.some.injEq, Prod.mk.injEq] at h
      obtain ⟨h1, h2⟩ := h
      subst h2
      exact absurd hca (List.not_mem_nil ca)
    | cons c rest =>
      simp only [subAuxF] at h
      by_cases hb : b = 0
      · rw [if_pos hb] at h
        rw [Option.some.injEq, Prod.mk.injEq] at h
        obtain ⟨h1, h2⟩ := h
        subst h2
        exact absurd hca (List.not_mem_nil ca)
      · rw [if_neg hb] at h
        cases hs : scanStep (c :: rest) with
        | none =>
          rw [hs] at h
          dsimp only at h
          cases hrec : subAuxF f fuel rest b with
          | none => rw [hrec] at h; exact absurd h (by simp)
          | some q =>
            rw [hrec] at h
            rw [Option.map_some', Option.some.injEq, Prod.mk.injEq] at h
            obtain ⟨h1, h2⟩ := h
            subst h2
            exact ih rest b q.1 q.2 (by rw [hrec]) ca hca
        | some p =>
          obtain ⟨s, after⟩ := p
          rw [hs] at h
          dsimp only at h
          cases hr : replaceCommand f s with
          | none => rw [hr] at h; exact absurd h (by simp)
          | some q =>
            obtain ⟨repl, cl⟩ := q
            rw [hr] at h
            dsimp only at h
            cases hrec : subAuxF f fuel after (b - 1) with
            | none => rw [hrec] at h; exact absurd h (by simp)
            | some q2 =>
              rw [hrec] at h
              rw [Option.map_some', Option.some.injEq, Prod.mk.injEq] at h
              obtain ⟨h1, h2⟩ := h
              subst h2
              rcases List.mem_append.mp hca with hca1 | hca2
              · exact replaceCommand_calls hr ca hca1
              · exact ih after (b - 1) q2.1 q2.2 (by rw [hrec]) ca hca2

/-! ## Claims C2 and C7 -/

/-- C2: a directive whose lower-cased command name is outside the fixed
allow-set is replaced by the inline rejection marker naming the command (the
marker text lists the allowed set) with no call recorded, and, over any full
expansion, every recorded filesystem/subprocess call carries a whitelisted
name — an unknown name is never handed to any execution path. -/
theorem c2_unknown_never_executes :
    (∀ (f : String → Option String → String) (text : String) (maxC : Nat)
        (res : ExpandResult), execute_safe_commands f text maxC = some res →
      ∀ ca ∈ res.calls, ca.1 ∈ ALLOWED_COMMANDS) ∧
    (∀ (f : String → Option String → String) (content : List Char)
        (tok : String) (argOpt : Option String),
      splitFirstToken (pyStrip content) = some (tok, argOpt) →
      lowerStr tok ∉ ALLOWED_COMMANDS →
      replaceCommand f content = some (errorMarker (lowerStr tok), [])) := by
  constructor
  · intro f text maxC res h ca hca
    simp only [execute_safe_commands] at h
    by_cases hn : countMatches text.data = 0
    · rw [if_pos hn] at h
      have h2 := Option.some.inj h
      rw [← h2] at hca
      exact absurd hca (List.not_mem_nil ca)
    · rw [if_neg hn] at h
      cases hrun : subRun f text.data (if maxC = 0 then countMatches text.data else maxC) with
      | none => rw [hrun] at h; exact absurd h (by simp)
      | some q =>
        rw [hrun] at h
        have h2 := Option.some.inj h
        rw [← h2] at hca
        exact subAuxF_calls f text.data.length text.data
          (if maxC = 0 then countMatches text.data else maxC) q.1 q.2 hrun ca hca
  · intro f content tok argOpt hsp hnm
    unfold replaceCommand
    rw [hsp]
    dsimp only
    rw [if_neg hnm]

/-- Witness for C2: the directive content "rm -rf /" is split into the name
"rm" (not in the allow-set) and its argument, and is replaced by the rejection
marker with no recorded call. -/
theorem c2_witness :
    splitFirstToken (pyStrip ("rm -rf /").data) = some ("rm", some "-rf /") ∧
    lowerStr "rm" ∉ ALLOWED_COMMANDS ∧
    replaceCommand (fun _ _ => "") ("rm -rf /").data =
      some (errorMarker (lowerStr "rm"), []) :=
  ⟨by decide, by decide,
    c2_unknown_never_executes.2 (fun _ _ => "") ("rm -rf /").data "rm" (some "-rf /")
      (by decide) (by decide)⟩

/-- C7: on text with more than 5 directives, the expansion with the default
cap of 5 renders exactly one warning, rewrites exactly an initial segment of
the text containing the first five matches, and appends the remainder
(carrying all further directives) textually unchanged. -/
theorem c7_cap_first_five (f : String → Option String → String) (text : String)
    (res : ExpandResult)
    (hrun : execute_safe_commands f text 5 = some res)
    (hn : 5 < countMatches text.data) :
    res.warnings = 1 ∧
    ∃ pre post preOut,
      text.data = pre ++ post ∧
      countMatches text.data = 5 + countMatches post ∧
      subRun f pre 5 = some (preOut, res.calls) ∧
      res.text.data = preOut ++ post := by
  have hn0 : ¬ countMatches text.data = 0 := by omega
  simp only [execute_safe_commands] at hrun
  rw [if_neg hn0] at hrun
  have hbudget : (if (5 : Nat) = 0 then countMatches text.data else 5) = 5 := by norm_num
  have hwarn : (if 5 < countMatches text.data then (1 : Nat) else 0) = 1 := if_pos hn
  rw [hbudget, hwarn] at hrun
  have h5 : (5 : Nat) ≤ countMatches text.data := by omega
  obtain ⟨pre, post, heq, hcnt, hsub⟩ := subRun_split text.data 5 h5
  rw [hsub f] at hrun
  cases hp : subRun f pre 5 with
  | none => rw [hp] at hrun; exact absurd hrun (by simp)
  | some q =>
    obtain ⟨preOut, calls⟩ := q
    rw [hp] at hrun
    simp only [Option.map_some'] at hrun
    have h2 := Option.some.inj hrun
    subst h2
    exact ⟨rfl, pre, post, preOut, heq, hcnt, hp, rfl⟩

/-- Witness for C7: six pwd directives with cap 5 — the first five are
replaced, the sixth is untouched, one warning is rendered. -/
theorem c7_witness :
    execute_safe_commands (fun _ _ => "R")
        "[CMD: pwd][CMD: pwd][CMD: pwd][CMD: pwd][CMD: pwd][CMD: pwd]" 5 =
      some { text := "RRRRR[CMD: pwd]", warnings := 1,
             calls := [("pwd", none), ("pwd", none), ("pwd", none),
                       ("pwd", none), ("pwd", none)] } ∧
    5 < countMatches ("[CMD: pwd][CMD: pwd][CMD: pwd][CMD: pwd][CMD: pwd][CMD: pwd]" : String).data ∧
    (({ text := "RRRRR[CMD: pwd]", warnings := 1,
        calls := [("pwd", none), ("pwd", none), ("pwd", none),
                  ("pwd", none), ("pwd", none)] } : ExpandResult).warnings = 1 ∧
      ∃ pre post preOut,
        ("[CMD: pwd][CMD: pwd][CMD: pwd][CMD: pwd][CMD: pwd][CMD: pwd]" : String).data =
          pre ++ post ∧
        countMatches
            ("[CMD: pwd][CMD: pwd][CMD: pwd][CMD: pwd][CMD: pwd][CMD: pwd]" : String).data =
          5 + countMatches post ∧
        subRun (fun _ _ => "R") pre 5 =
          some (preOut,
            ({ text := "RRRRR[CMD: pwd]", warnings := 1,
               calls := [("pwd", none), ("pwd", none), ("pwd", none),
                         ("pwd", none), ("pwd", none)] } : ExpandResult).calls) ∧
        (({ text := "RRRRR[CMD: pwd]", warnings := 1,
            calls := [("pwd", none), ("pwd", none), ("pwd", none),
                      ("pwd", none), ("pwd", none)] } : ExpandResult).text).data =
          preOut ++ post) :=
  ⟨by decide, by decide,
    c7_cap_first_five (fun _ _ => "R")
      "[CMD: pwd][CMD: pwd][CMD: pwd][CMD: pwd][CMD: pwd][CMD: pwd]"
      { text := "RRRRR[CMD: pwd]", warnings := 1,
        calls := [("pwd", none), ("pwd", none), ("pwd", none),
                  ("pwd", none), ("pwd", none)] }
      (by decide) (by decide)⟩

end AiCli
